import Mathlib

/-!
Verification development for the Hashicorp-vault account plugin.

The definitions below are a shallow embedding of the Go sources
(internal/signer.go and internal/vault/hashicorp/client.go): pure Go
functions become Lean functions, Go errors become Except values, external
collaborators (the vault HTTP client, the rlp codec, the url parser) become
function parameters, and the process environment becomes a function from
variable names to values (os.Getenv returns the empty string for unset
variables).  Machine integers in the modelled code paths are list lengths
and secret versions, which the code never overflows; they are modelled as
Nat/Int.
-/

namespace QuorumVaultPlugin

/-- A Go byte value (an element of a Go byte slice), modelled as a Nat.
A well-formed byte is below 256. -/
abbrev GoByte := Nat

/-- Model of go-ethereum common.Address, the 20-byte account address,
as the list of its bytes. -/
structure Address where
  bytes : List GoByte
deriving DecidableEq, Repr

/-- The Go zero value common.Address\x7b\x7d: twenty zero bytes. -/
def zeroAddress : Address := ⟨List.replicate 20 0⟩

/-- Model of go-ethereum accounts.URL: a scheme and a path. -/
structure URL where
  scheme : String
  path : String
deriving DecidableEq, Repr

/-- Model of Go strings.Compare via the total order on String. -/
def strCmp (a b : String) : Ordering :=
  if a < b then .lt else if a = b then .eq else .gt

/-- go-ethereum accounts.URL.Cmp: compare schemes, then paths. -/
def urlCmp (u v : URL) : Ordering :=
  if u.scheme = v.scheme then strCmp u.path v.path else strCmp u.scheme v.scheme

/-- The ordering used by the AccountsByURL sort: Less is URL.Cmp < 0,
so the sorted order is the one in which consecutive URLs are not
in Cmp-descending position. -/
def urlLeB (u v : URL) : Bool := !(urlCmp u v == .gt)

/-- go-ethereum accounts.URL.String: scheme://path, or the bare path when
the scheme is empty. -/
def urlToString (u : URL) : String :=
  if u.scheme ≠ "" then u.scheme ++ "://" ++ u.path else u.path

/-- Model of go-ethereum accounts.Account: the address and wallet URL pair. -/
structure Account where
  address : Address
  url : URL
deriving DecidableEq, Repr

/-- Comparison of two accounts by wallet URL (vault.AccountsByURL Less,
made non-strict for sortedness statements). -/
def accountLeB (x y : Account) : Bool := urlLeB x.url y.url

/-! ### Credentials from the environment (client.go getAuthCredentials) -/

/-- The process environment: os.Getenv, which returns the empty string for
an unset variable. -/
def Env := String → String

/-- Constant DefaultRoleIDEnv from client.go. -/
def DefaultRoleIDEnv : String := "QRM_HASHIVLT_ROLE_ID"

/-- Constant DefaultSecretIDEnv from client.go. -/
def DefaultSecretIDEnv : String := "QRM_HASHIVLT_SECRET_ID"

/-- Constant DefaultTokenEnv from client.go. -/
def DefaultTokenEnv : String := "QRM_HASHIVLT_TOKEN"

/-- Function applyPrefix from client.go: prepend an authID prefix with an
underscore (fmt.Sprintf percent-v underscore percent-v), or return the name
unchanged when the prefix is empty. -/
def applyPrefixEnv (pre val : String) : String :=
  if pre = "" then val else pre ++ "_" ++ val

/-- Struct authCredentials from client.go. -/
structure AuthCredentials where
  roleID : String
  secretID : String
  token : String
deriving DecidableEq, Repr

/-- Method authCredentials.usingApproleAuth from client.go. -/
def AuthCredentials.usingApproleAuth (a : AuthCredentials) : Bool :=
  a.roleID ≠ "" && a.secretID ≠ ""

/-- The two credential validation errors of client.go
(noHashicorpEnvSetErr and invalidApproleAuthErr), carrying the same
identifying fields as the Go structs. -/
inductive CredentialsError
  | noHashicorpEnvSet (roleIdEnv secretIdEnv tokenEnv : String)
  | invalidApproleAuth (roleIdEnv secretIdEnv : String)
deriving DecidableEq, Repr

/-- Function getAuthCredentials from client.go: read the (optionally
authID-prefixed) role-id, secret-id and token variables from the
environment and validate the combination. -/
def getAuthCredentials (env : Env) (authID : String) :
    Except CredentialsError AuthCredentials :=
  let roleIDEnv := applyPrefixEnv authID DefaultRoleIDEnv
  let secretIDEnv := applyPrefixEnv authID DefaultSecretIDEnv
  let tokenEnv := applyPrefixEnv authID DefaultTokenEnv
  let roleID := env roleIDEnv
  let secretID := env secretIDEnv
  let token := env tokenEnv
  if roleID = "" ∧ secretID = "" ∧ token = "" then
    .error (.noHashicorpEnvSet roleIDEnv secretIDEnv tokenEnv)
  else if (roleID = "" ∧ secretID ≠ "") ∨ (roleID ≠ "" ∧ secretID = "") then
    .error (.invalidApproleAuth roleIDEnv secretIDEnv)
  else
    .ok { roleID := roleID, secretID := secretID, token := token }

/-- Claim C8 exactly as stated, at one environment and authID: reading
credentials succeeds exactly when either a token is set or both role-id and
secret-id are set; all three empty gives the no-credentials error; exactly
one of role-id and secret-id set gives the incomplete-AppRole error. -/
def CredentialsClaimAt (env : Env) (authID : String) : Prop :=
  let roleID := env (applyPrefixEnv authID DefaultRoleIDEnv)
  let secretID := env (applyPrefixEnv authID DefaultSecretIDEnv)
  let token := env (applyPrefixEnv authID DefaultTokenEnv)
  ((∃ c, getAuthCredentials env authID = .ok c) ↔
      (token ≠ "" ∨ (roleID ≠ "" ∧ secretID ≠ ""))) ∧
  (roleID = "" ∧ secretID = "" ∧ token = "" →
    getAuthCredentials env authID =
      .error (.noHashicorpEnvSet (applyPrefixEnv authID DefaultRoleIDEnv)
        (applyPrefixEnv authID DefaultSecretIDEnv)
        (applyPrefixEnv authID DefaultTokenEnv))) ∧
  ((roleID = "" ∧ secretID ≠ "") ∨ (roleID ≠ "" ∧ secretID = "") →
    getAuthCredentials env authID =
      .error (.invalidApproleAuth (applyPrefixEnv authID DefaultRoleIDEnv)
        (applyPrefixEnv authID DefaultSecretIDEnv)))

/-- An environment with a role-id and a token set but no secret-id:
the configuration on which claim C8 and the code disagree. -/
def envRoleAndTokenOnly : Env :=
  fun name =>
    if name = DefaultRoleIDEnv then "role-1"
    else if name = DefaultTokenEnv then "token-1" else ""

/-- An environment with a complete AppRole credential pair set. -/
def envApproleOnly : Env :=
  fun name =>
    if name = DefaultRoleIDEnv then "role-1"
    else if name = DefaultSecretIDEnv then "secret-1" else ""

/-! ### Vault reads (client.go getSecretFromVault) -/

/-- A dynamically typed Go value held in a vault response Data map; the
source narrows such values with type assertions. -/
inductive GoValue
  | str (s : String)
  | map (entries : List (String × GoValue))
  | other

/-- Model of a vault api.Secret read response: its dynamically typed Data
map. -/
structure VaultResponse where
  data : List (String × GoValue)

/-- The range loop in getSecretFromVault that keeps the last visited value
of the one-entry map (var s interface; for each d in respData, s = d). -/
def lastValue (entries : List (String × GoValue)) : Option GoValue :=
  entries.foldl (fun _ kv => some kv.2) none

/-- The read operation of one authenticated vault client,
client.Logical().ReadWithData: a path and query data to either a transport
error or an optional response. -/
def VaultReader := String → List (String × List String) →
  Except String (Option VaultResponse)

/-- PathParams of the account config: secret engine path, secret path and
secret version. -/
structure PathParams where
  secretEnginePath : String
  secretPath : String
  secretVersion : Int
deriving DecidableEq, Repr

/-- The HashicorpVault part of an account config (the fields the modelled
code reads). -/
structure VaultSecretConfig where
  pathParams : PathParams
  authID : String
deriving DecidableEq, Repr

/-- An on-disk account config (the fields the modelled code reads). -/
structure AccountConfig where
  address : String
  hashicorpVault : VaultSecretConfig
  id : String
deriving DecidableEq, Repr

/-- hashicorp vaultClientManager: the vault address and the map from authID
to the authenticated client, of which the modelled code uses the read
operation. -/
structure VaultClientManager where
  vaultAddr : String
  clients : String → Option VaultReader

/-- hashicorp vaultClientManager.getSecretFromVault (client.go): build the
engine/data/secret path and version query, look up the client for the
config's authID, read, and narrow the response: the data field must be a
map with exactly one entry whose value is a string. -/
def getSecretFromVault (m : VaultClientManager) (config : AccountConfig) :
    Except String String :=
  let path := config.hashicorpVault.pathParams.secretEnginePath ++ "/data/" ++
    config.hashicorpVault.pathParams.secretPath
  let versionData := [("version", [toString config.hashicorpVault.pathParams.secretVersion])]
  match m.clients config.hashicorpVault.authID with
  | none => .error ("no client configured for Vault " ++ m.vaultAddr ++
      " and authID " ++ config.hashicorpVault.authID)
  | some read =>
    match read path versionData with
    | .error e => .error ("unable to get secret from Hashicorp Vault: " ++ e)
    | .ok none => .error "no data for secret in Hashicorp Vault"
    | .ok (some resp) =>
      match resp.data.lookup "data" with
      | some (.map respData) =>
        if respData.length ≠ 1 then
          .error "only one key/value pair is allowed in each Hashicorp Vault secret"
        else
          match lastValue respData with
          | some (.str secret) => .ok secret
          | _ => .error "Hashicorp Vault response data is not in string format"
      | _ => .error "Hashicorp Vault response does not contain data"

/-! ### Panicking stubs (client.go StoreKey and JoinPath) and concrete
sample values -/

/-- Outcome of a Go call that may panic instead of returning. -/
inductive PanicOr (α : Type)
  | ok (val : α)
  | panicked (msg : String)
deriving DecidableEq, Repr

/-- A stored key (the hashicorp Key struct): id, derived address, and the
private key material, abstracted to its bytes. -/
structure Key where
  id : String
  address : Address
  privateKey : List GoByte
deriving DecidableEq, Repr

/-- hashicorp vaultClientManager.StoreKey (client.go): its entire body is
panic("implement me"). -/
def hashicorpStoreKey (_m : VaultClientManager) (_filename : String) (_k : Key)
    (_auth : String) : PanicOr (Option String) :=
  .panicked "implement me"

/-- hashicorp vaultClientManager.JoinPath (client.go): its entire body is
panic("implement me"). -/
def hashicorpJoinPath (_m : VaultClientManager) (_filename : String) :
    PanicOr String :=
  .panicked "implement me"

/-- A sample response whose data field is a one-entry string map. -/
def sampleResponse : VaultResponse :=
  ⟨[("data", .map [("k1", .str "deadbeef")])]⟩

/-- A sample reader that returns sampleResponse for every read. -/
def sampleReader : VaultReader := fun _ _ => .ok (some sampleResponse)

/-- A sample client manager holding sampleReader under authID auth1. -/
def sampleManager : VaultClientManager :=
  ⟨"https://vault:8200", fun authID => if authID = "auth1" then some sampleReader else none⟩

/-- A sample account config pointing at authID auth1. -/
def sampleConfig : AccountConfig :=
  ⟨"1a31744b4b6b3b1b", ⟨⟨"engine", "myacct", 2⟩, "auth1"⟩, "id-1"⟩

/-- A sample key. -/
def sampleKey : Key := ⟨"id-1", zeroAddress, List.replicate 32 1⟩

/-! ### RPC error shape and plugin Init (signer.go) -/

/-- A gRPC status code used by the plugin. -/
inductive GrpcCode
  | internal
  | invalidArgument
deriving DecidableEq, Repr

/-- A Go error returned by an RPC handler: either a gRPC status error built
with status.Error(code, msg), or a plain error value returned unwrapped. -/
inductive RpcError
  | statusError (code : GrpcCode) (msg : String)
  | plainError (msg : String)
deriving DecidableEq, Repr

/-- Go encoding/json.Unmarshal applied to a non-pointer target value: by
the json package contract it fails with an InvalidUnmarshalError without
consuming its input.  HashicorpPlugin.Init passes its config.VaultClients
value conf, not a pointer to it, so this is the call the code makes. -/
def jsonUnmarshalIntoNonPointer (_raw : List GoByte) : Except String Unit :=
  .error "json: Unmarshal(non-pointer config.VaultClients)"

/-- HashicorpPlugin.Init (signer.go): unmarshal the raw configuration into
conf, validate it, build the account manager, and acknowledge with the
empty response.  The configuration type, its Validate method and
hashicorp.NewAccountManager are outside the modelled sources and appear as
parameters; conf is the zero value the var declaration introduces. -/
def hashicorpPluginInit {Config AM : Type} (conf : Config)
    (validate : Config → Except String Unit)
    (newAccountManager : Config → Except String AM)
    (raw : List GoByte) : Except RpcError Unit :=
  match jsonUnmarshalIntoNonPointer raw with
  | .error e => .error (.statusError .invalidArgument e)
  | .ok _ =>
    match validate conf with
    | .error e => .error (.statusError .invalidArgument e)
    | .ok _ =>
      match newAccountManager conf with
      | .error e => .error (.statusError .invalidArgument e)
      | .ok _ => .ok ()

/-! ### Renewal and re-authentication loops (signer.go manager package and
client.go) -/

/-- reauthRetryInterval from the manager package: 5000 milliseconds. -/
def reauthRetryInterval : Nat := 5000

/-- One world of re-authentication outcomes: attempt i (0-based) either
fails with an error message or succeeds. -/
def ReauthOutcomes := Nat → Option String

/-- The inner retry loop of manager authenticatedClient.renew, entered when
the renewal driver terminates: starting at attempt index i and observed for
at most fuel attempts, it returns the 1-based number of the attempt that
succeeded (none while every observed attempt failed and the loop is still
running) together with the list of sleeps performed, one
reauthRetryInterval sleep after each failed attempt.  Its result carries no
error: failures are only logged. -/
def reauthRetryLoop (results : ReauthOutcomes) : Nat → Nat → Option Nat × List Nat
  | 0, _ => (none, [])
  | fuel+1, i =>
    match results i with
    | none => (some (i+1), [])
    | some _ =>
      let r := reauthRetryLoop results fuel (i+1)
      (r.1, reauthRetryInterval :: r.2)

/-- Trace of one pass through the DoneCh branch of a renew loop. -/
structure ReauthBranchTrace where
  loginAttempts : Nat
  sleeps : List Nat
  installedToken : Option String
  surfaced : Option String
deriving DecidableEq, Repr

/-- The DoneCh branch of hashicorp authenticatedClient.renew (client.go):
read credentials (logging any error and continuing with the zero
credentials), perform one approle login (logging any error and continuing
with a nil response), take the TokenID of the response (the empty string
for a nil response), install it with SetToken, and restart the renewer.
The login parameter combines approleLogin and Secret.TokenID.  No sleep is
performed, the login is not retried, and no error reaches a caller. -/
def hashicorpRenewDoneBranch (env : Env) (authID : String)
    (login : AuthCredentials → Except String String) : ReauthBranchTrace :=
  let creds := match getAuthCredentials env authID with
    | .ok c => c
    | .error _ => { roleID := "", secretID := "", token := "" }
  let t := match login creds with
    | .ok tokenID => tokenID
    | .error _ => ""
  { loginAttempts := 1, sleeps := [], installedToken := some t, surfaced := none }

/-- A world in which the first two re-authentication attempts fail and the
third succeeds. -/
def failTwiceOutcomes : ReauthOutcomes :=
  fun i => if i < 2 then some "connection refused" else none

/-- A world in which every re-authentication attempt fails. -/
def alwaysFailOutcomes : ReauthOutcomes := fun _ => some "connection refused"

/-! ### Wire conversion of accounts (signer.go asAccount and
asProtoAccount) -/

/-- The lowercase digit table of encoding/hex. -/
def hextable : List Char := "0123456789abcdef".toList

/-- One hex digit (meaningful for n below 16). -/
def nibbleToChar (n : Nat) : Char := hextable.getD n '0'

/-- encoding/hex encoding of one byte: high nibble then low nibble,
lowercase (for a well-formed byte the shift b div 16 is the high nibble). -/
def byteToHexPair (b : GoByte) : List Char :=
  [nibbleToChar (b / 16), nibbleToChar (b % 16)]

/-- common.Bytes2Hex via encoding/hex EncodeToString: the encode loop,
two characters per byte. -/
def bytes2Hex : List GoByte → List Char
  | [] => []
  | b :: rest => byteToHexPair b ++ bytes2Hex rest

/-- encoding/hex digit decoding (fromHexChar). -/
def hexCharValue (c : Char) : Option Nat :=
  if '0' ≤ c ∧ c ≤ '9' then some (c.toNat - 48)
  else if 'a' ≤ c ∧ c ≤ 'f' then some (c.toNat - 97 + 10)
  else if 'A' ≤ c ∧ c ≤ 'F' then some (c.toNat - 65 + 10)
  else none

/-- common.Hex2Bytes via encoding/hex DecodeString: decode pairs of hex
characters, keeping the bytes decoded before a malformed pair or an odd
tail (the decode error is discarded by Hex2Bytes). -/
def hex2Bytes : List Char → List GoByte
  | c1 :: c2 :: rest =>
    match hexCharValue c1, hexCharValue c2 with
    | some hi, some lo => (16 * hi + lo) :: hex2Bytes rest
    | _, _ => []
  | _ => []

/-- common.hasHexPrefix: a leading 0x or 0X. -/
def hasHexPrefixChars : List Char → Bool
  | c0 :: c1 :: _ => c0 == '0' && (c1 == 'x' || c1 == 'X')
  | _ => false

/-- common.isHexCharacter. -/
def isHexCharacter (c : Char) : Bool :=
  ('0' ≤ c && c ≤ '9') || ('a' ≤ c && c ≤ 'f') || ('A' ≤ c && c ≤ 'F')

/-- common.isHex: even length, hex characters throughout. -/
def isHexChars (s : List Char) : Bool :=
  s.length % 2 == 0 && s.all isHexCharacter

/-- common.IsHexAddress: after stripping an optional 0x prefix, exactly
forty hex characters. -/
def isHexAddress (s : List Char) : Bool :=
  let t := if hasHexPrefixChars s then s.drop 2 else s
  t.length == 2 * 20 && isHexChars t

/-- common.FromHex: strip an optional 0x prefix, left-pad an odd-length
string with one 0 digit, decode. -/
def fromHex (s : List Char) : List GoByte :=
  let t := if hasHexPrefixChars s then s.drop 2 else s
  let t := if t.length % 2 = 1 then '0' :: t else t
  hex2Bytes t

/-- common.BytesToAddress via Address.SetBytes: keep the last twenty bytes
and left-pad with zeros. -/
def bytesToAddress (b : List GoByte) : Address :=
  let b := if b.length > 20 then b.drop (b.length - 20) else b
  ⟨List.replicate (20 - b.length) 0 ++ b⟩

/-- common.HexToAddress. -/
def hexToAddress (s : List Char) : Address := bytesToAddress (fromHex s)

/-- unicode.IsSpace restricted to the ASCII whitespace strings.TrimSpace
can meet in the hex strings handled here. -/
def isSpaceGo (c : Char) : Bool :=
  c == ' ' || c == '\t' || c == '\n' || c == '\r' ||
    c == Char.ofNat 11 || c == Char.ofNat 12

/-- strings.TrimSpace on a character list: drop whitespace from both
ends. -/
def trimSpaceChars (s : List Char) : List Char :=
  ((s.dropWhile isSpaceGo).reverse.dropWhile isSpaceGo).reverse

/-- The wire form proto.Account: raw address bytes and a url string. -/
structure ProtoAccount where
  address : List GoByte
  url : String
deriving DecidableEq, Repr

/-- asProtoAccount (signer.go): the address bytes and the printed URL. -/
def asProtoAccount (acct : Account) : ProtoAccount :=
  { address := acct.address.bytes, url := urlToString acct.url }

/-- asAccount (signer.go): trim and hex-check the printed form of the
address bytes, parse the url with utils.ToUrl (a parameter: that function
is outside the modelled sources), and rebuild the account. -/
def asAccount (toUrl : String → Except String URL) (p : ProtoAccount) :
    Except String Account :=
  let addr := trimSpaceChars (bytes2Hex p.address)
  if isHexAddress addr then
    match toUrl p.url with
    | .error e => .error e
    | .ok url => .ok { address := hexToAddress addr, url := url }
  else .error ("invalid hex address: " ++ String.mk addr)

/-- A sample account with a one-in-the-last-byte address. -/
def sampleAccount : Account :=
  ⟨⟨List.replicate 19 0 ++ [1]⟩, ⟨"file", "/kd/a1.json"⟩⟩

/-- A sample url parser recognising sampleAccount's printed URL. -/
def sampleToUrl : String → Except String URL :=
  fun s => if s = "file:///kd/a1.json" then .ok ⟨"file", "/kd/a1.json"⟩
    else .error "unknown url"

/-! ### RPC handlers (signer.go delegate methods) -/

/-- big.Int SetBytes: the big-endian unsigned integer of a byte slice. -/
def bytesToNat (bs : List GoByte) : Nat :=
  bs.foldl (fun acc b => acc * 256 + b) 0

/-- The behavior of one wallet as the RPC adapter drives it (the
accounts.Wallet methods the modelled handlers call); Tx is the opaque
decoded transaction type. -/
structure WalletModel (Tx : Type) where
  status : Except String String
  openW : String → Except String Unit
  close : Except String Unit
  accounts : List Account
  contains : Account → Bool
  signHash : Account → List GoByte → Except String (List GoByte)
  signHashWithPassphrase : Account → String → List GoByte → Except String (List GoByte)
  signTx : Account → Tx → Nat → Except String Tx
  signTxWithPassphrase : Account → String → Tx → Nat → Except String Tx

/-- The secret-location fields asVaultAccountConfig (signer.go) extracts
from a NewVaultAccount wire message (config.VaultSecretConfig as the
account creator consumes it). -/
structure VaultSecretCreationConfig where
  secretEnginePath : String
  secretPath : String
  authID : String
  insecureSkipCas : Bool
  casValue : Nat
deriving DecidableEq, Repr

/-- proto.NewVaultAccount (the fields the modelled handlers read). -/
structure NewVaultAccount where
  vaultAddress : String
  secretEnginePath : String
  secretPath : String
  authID : String
  insecureSkipCas : Bool
  casValue : Nat
deriving DecidableEq, Repr

/-- asVaultAccountConfig (signer.go): copy the secret-location fields of
the wire message. -/
def asVaultAccountConfig (req : NewVaultAccount) : VaultSecretCreationConfig :=
  { secretEnginePath := req.secretEnginePath
    secretPath := req.secretPath
    authID := req.authID
    insecureSkipCas := req.insecureSkipCas
    casValue := req.casValue }

/-- The account-creation operations reached through GetAccountCreator
(manager.AccountCreator); EcdsaKey is the opaque parsed key type. -/
structure AccountCreatorModel (EcdsaKey : Type) where
  newAccount : VaultSecretCreationConfig → Except String (Account × String)
  importECDSA : EcdsaKey → VaultSecretCreationConfig → Except String (Account × String)

/-- The backend operations of the account manager delegate used by the
modelled handlers: wallet lookup by url, timed unlock, lock, and account
creator lookup by vault address. -/
structure ManagerModel (Tx EcdsaKey : Type) where
  wallet : String → Except String (WalletModel Tx)
  timedUnlock : Account → String → Int → Except String Unit
  lock : Account → Except String Unit
  getAccountCreator : String → Except String (AccountCreatorModel EcdsaKey)

/-- proto.StatusRequest. -/
structure StatusRequest where
  walletUrl : String

/-- proto.OpenRequest. -/
structure OpenRequest where
  walletUrl : String
  passphrase : String

/-- proto.CloseRequest. -/
structure CloseRequest where
  walletUrl : String

/-- proto.AccountsRequest. -/
structure AccountsRequest where
  walletUrl : String

/-- proto.SignHashWithPassphraseRequest. -/
structure SignHashWithPassphraseRequest where
  walletUrl : String
  account : ProtoAccount
  passphrase : String
  hash : List GoByte

/-- proto.NewAccountRequest. -/
structure NewAccountRequest where
  newVaultAccount : NewVaultAccount

/-- proto.ImportRawKeyRequest. -/
structure ImportRawKeyRequest where
  newVaultAccount : NewVaultAccount
  rawKey : String

/-- proto.ContainsRequest. -/
structure ContainsRequest where
  walletUrl : String
  account : ProtoAccount

/-- proto.SignHashRequest. -/
structure SignHashRequest where
  walletUrl : String
  account : ProtoAccount
  hash : List GoByte

/-- proto.SignTxRequest. -/
structure SignTxRequest where
  walletUrl : String
  account : ProtoAccount
  rlpTx : List GoByte
  chainID : List GoByte

/-- proto.SignTxWithPassphraseRequest. -/
structure SignTxWithPassphraseRequest where
  walletUrl : String
  passphrase : String
  account : ProtoAccount
  rlpTx : List GoByte
  chainID : List GoByte

/-- proto.TimedUnlockRequest (duration in nanoseconds). -/
structure TimedUnlockRequest where
  account : ProtoAccount
  password : String
  duration : Int

/-- proto.LockRequest. -/
structure LockRequest where
  account : ProtoAccount

/-- Delegate Status handler (signer.go). -/
def statusHandler {Tx K : Type} (m : ManagerModel Tx K) (req : StatusRequest) :
    Except RpcError String :=
  match m.wallet req.walletUrl with
  | .error e => .error (.statusError .internal e)
  | .ok w =>
    match w.status with
    | .error e => .error (.statusError .internal e)
    | .ok s => .ok s

/-- Delegate Contains handler (signer.go). -/
def containsHandler {Tx K : Type} (toUrl : String → Except String URL)
    (m : ManagerModel Tx K) (req : ContainsRequest) : Except RpcError Bool :=
  match m.wallet req.walletUrl with
  | .error e => .error (.statusError .internal e)
  | .ok w =>
    match asAccount toUrl req.account with
    | .error e => .error (.statusError .internal e)
    | .ok a => .ok (w.contains a)

/-- Delegate SignHash handler (signer.go). -/
def signHashHandler {Tx K : Type} (toUrl : String → Except String URL)
    (m : ManagerModel Tx K) (req : SignHashRequest) :
    Except RpcError (List GoByte) :=
  match m.wallet req.walletUrl with
  | .error e => .error (.statusError .internal e)
  | .ok w =>
    match asAccount toUrl req.account with
    | .error e => .error (.statusError .internal e)
    | .ok a =>
      match w.signHash a req.hash with
      | .error e => .error (.statusError .internal e)
      | .ok result => .ok result

/-- Delegate SignTx handler (signer.go): wallet lookup, account and
transaction decoding and signing all wrap their errors as Internal status
errors; the final rlp re-encode returns its error unwrapped (the source
returns nil, err there without status.Error). -/
def signTxHandler {Tx K : Type} (toUrl : String → Except String URL)
    (rlpDecode : List GoByte → Except String Tx)
    (rlpEncode : Tx → Except String (List GoByte))
    (m : ManagerModel Tx K) (req : SignTxRequest) : Except RpcError (List GoByte) :=
  match m.wallet req.walletUrl with
  | .error e => .error (.statusError .internal e)
  | .ok w =>
    match asAccount toUrl req.account with
    | .error e => .error (.statusError .internal e)
    | .ok a =>
      match rlpDecode req.rlpTx with
      | .error e => .error (.statusError .internal e)
      | .ok tx =>
        match w.signTx a tx (bytesToNat req.chainID) with
        | .error e => .error (.statusError .internal e)
        | .ok result =>
          match rlpEncode result with
          | .error e => .error (.plainError e)
          | .ok rlpTx => .ok rlpTx

/-- Delegate SignTxWithPassphrase handler (signer.go): same shape as
SignTx, same unwrapped error on the final re-encode. -/
def signTxWithPassphraseHandler {Tx K : Type} (toUrl : String → Except String URL)
    (rlpDecode : List GoByte → Except String Tx)
    (rlpEncode : Tx → Except String (List GoByte))
    (m : ManagerModel Tx K) (req : SignTxWithPassphraseRequest) :
    Except RpcError (List GoByte) :=
  match m.wallet req.walletUrl with
  | .error e => .error (.statusError .internal e)
  | .ok w =>
    match asAccount toUrl req.account with
    | .error e => .error (.statusError .internal e)
    | .ok a =>
      match rlpDecode req.rlpTx with
      | .error e => .error (.statusError .internal e)
      | .ok tx =>
        match w.signTxWithPassphrase a req.passphrase tx (bytesToNat req.chainID) with
        | .error e => .error (.statusError .internal e)
        | .ok result =>
          match rlpEncode result with
          | .error e => .error (.plainError e)
          | .ok rlpTx => .ok rlpTx

/-- Delegate TimedUnlock handler (signer.go). -/
def timedUnlockHandler {Tx K : Type} (toUrl : String → Except String URL)
    (m : ManagerModel Tx K) (req : TimedUnlockRequest) : Except RpcError Unit :=
  match asAccount toUrl req.account with
  | .error e => .error (.statusError .internal e)
  | .ok a =>
    match m.timedUnlock a req.password req.duration with
    | .error e => .error (.statusError .internal e)
    | .ok _ => .ok ()

/-- Delegate Lock handler (signer.go). -/
def lockHandler {Tx K : Type} (toUrl : String → Except String URL)
    (m : ManagerModel Tx K) (req : LockRequest) : Except RpcError Unit :=
  match asAccount toUrl req.account with
  | .error e => .error (.statusError .internal e)
  | .ok a =>
    match m.lock a with
    | .error e => .error (.statusError .internal e)
    | .ok _ => .ok ()

/-- Delegate Open handler (signer.go). -/
def openHandler {Tx K : Type} (m : ManagerModel Tx K) (req : OpenRequest) :
    Except RpcError Unit :=
  match m.wallet req.walletUrl with
  | .error e => .error (.statusError .internal e)
  | .ok w =>
    match w.openW req.passphrase with
    | .error e => .error (.statusError .internal e)
    | .ok _ => .ok ()

/-- Delegate Close handler (signer.go). -/
def closeHandler {Tx K : Type} (m : ManagerModel Tx K) (req : CloseRequest) :
    Except RpcError Unit :=
  match m.wallet req.walletUrl with
  | .error e => .error (.statusError .internal e)
  | .ok w =>
    match w.close with
    | .error e => .error (.statusError .internal e)
    | .ok _ => .ok ()

/-- Delegate Accounts handler (signer.go): wallet lookup errors wrap as
Internal; the accounts themselves are converted without an error path. -/
def accountsHandler {Tx K : Type} (m : ManagerModel Tx K) (req : AccountsRequest) :
    Except RpcError (List ProtoAccount) :=
  match m.wallet req.walletUrl with
  | .error e => .error (.statusError .internal e)
  | .ok w => .ok (w.accounts.map asProtoAccount)

/-- Delegate SignHashWithPassphrase handler (signer.go). -/
def signHashWithPassphraseHandler {Tx K : Type} (toUrl : String → Except String URL)
    (m : ManagerModel Tx K) (req : SignHashWithPassphraseRequest) :
    Except RpcError (List GoByte) :=
  match m.wallet req.walletUrl with
  | .error e => .error (.statusError .internal e)
  | .ok w =>
    match asAccount toUrl req.account with
    | .error e => .error (.statusError .internal e)
    | .ok a =>
      match w.signHashWithPassphrase a req.passphrase req.hash with
      | .error e => .error (.statusError .internal e)
      | .ok result => .ok result

/-- Delegate NewAccount handler (signer.go). -/
def newAccountHandler {Tx K : Type} (m : ManagerModel Tx K) (req : NewAccountRequest) :
    Except RpcError (ProtoAccount × String) :=
  match m.getAccountCreator req.newVaultAccount.vaultAddress with
  | .error e => .error (.statusError .internal e)
  | .ok b =>
    match b.newAccount (asVaultAccountConfig req.newVaultAccount) with
    | .error e => .error (.statusError .internal e)
    | .ok (acct, secretUri) => .ok (asProtoAccount acct, secretUri)

/-- Delegate ImportRawKey handler (signer.go): crypto.HexToECDSA is
outside the modelled sources and appears as a parameter. -/
def importRawKeyHandler {Tx K : Type} (hexToECDSA : String → Except String K)
    (m : ManagerModel Tx K) (req : ImportRawKeyRequest) :
    Except RpcError (ProtoAccount × String) :=
  match m.getAccountCreator req.newVaultAccount.vaultAddress with
  | .error e => .error (.statusError .internal e)
  | .ok b =>
    match hexToECDSA req.rawKey with
    | .error e => .error (.statusError .internal e)
    | .ok key =>
      match b.importECDSA key (asVaultAccountConfig req.newVaultAccount) with
      | .error e => .error (.statusError .internal e)
      | .ok (acct, secretUri) => .ok (asProtoAccount acct, secretUri)

/-- A wallet whose operations succeed, the signatures being the decoded
transaction itself (Tx is Unit). -/
def sampleWalletUnit : WalletModel Unit :=
  { status := .ok "Open"
    openW := fun _ => .ok ()
    close := .ok ()
    accounts := []
    contains := fun _ => true
    signHash := fun _ _ => .ok (List.replicate 65 0)
    signHashWithPassphrase := fun _ _ _ => .ok (List.replicate 65 0)
    signTx := fun _ tx _ => .ok tx
    signTxWithPassphrase := fun _ _ tx _ => .ok tx }

/-- A manager that finds sampleWalletUnit under every url (Tx and the
parsed key type are both Unit). -/
def sampleManagerUnit : ManagerModel Unit Unit :=
  { wallet := fun _ => .ok sampleWalletUnit
    timedUnlock := fun _ _ _ => .ok ()
    lock := fun _ => .ok ()
    getAccountCreator := fun _ => .ok
      { newAccount := fun _ => .ok (sampleAccount, "uri")
        importECDSA := fun _ _ => .ok (sampleAccount, "uri") } }

/-- An rlp decoder that always succeeds on the unit transaction type. -/
def decodeUnitOk : List GoByte → Except String Unit := fun _ => .ok ()

/-- An rlp encoder that fails. -/
def encodeFailBoom : Unit → Except String (List GoByte) := fun _ => .error "boom"

/-- A SignTx request for sampleAccount. -/
def sampleSignTxRequest : SignTxRequest :=
  { walletUrl := "file:///kd/a1.json", account := asProtoAccount sampleAccount,
    rlpTx := [], chainID := [] }

/-! ### The event stream (signer.go GetEventStream) -/

/-- A wallet lifecycle event kind; accounts.WalletEvent Kind and the proto
stream response enum share the three values. -/
inductive WalletEventKind
  | walletArrived
  | walletOpened
  | walletDropped
deriving DecidableEq, Repr

/-- A backend wallet event: its kind and the wallet's URL. -/
structure WalletEvent where
  kind : WalletEventKind
  url : URL
deriving DecidableEq, Repr

/-- A streamed proto.GetEventStreamResponse: kind plus printed wallet
URL. -/
structure ProtoStreamResponse where
  kind : WalletEventKind
  walletUrl : String
deriving DecidableEq, Repr

/-- asProtoWalletEvent (signer.go): translate the event kind and print the
wallet URL. -/
def asProtoWalletEvent (e : WalletEvent) : ProtoStreamResponse :=
  let t := match e.kind with
    | .walletArrived => WalletEventKind.walletArrived
    | .walletOpened => WalletEventKind.walletOpened
    | .walletDropped => WalletEventKind.walletDropped
  { kind := t, walletUrl := urlToString e.url }

/-- One behavior of stream.Send: whether the i-th send succeeds. -/
def SendOutcomes := Nat → Bool

/-- Deliver a list of events over the stream starting at send index i:
the events the client receives and whether all sends succeeded; the
handler returns at the first failed send, whose event is not delivered. -/
def sendEvents (sendOk : SendOutcomes) :
    Nat → List ProtoStreamResponse → List ProtoStreamResponse × Bool
  | _, [] => ([], true)
  | i, e :: rest =>
    if sendOk i then
      let r := sendEvents sendOk (i+1) rest
      (e :: r.1, r.2)
    else ([], false)

/-- The synthetic snapshot event for one wallet (WALLET_ARRIVED with the
wallet's printed URL). -/
def snapshotEvent (u : URL) : ProtoStreamResponse :=
  { kind := .walletArrived, walletUrl := urlToString u }

/-- GetEventStream (signer.go), observed until the given live events are
exhausted: take the wallets currently held, subscribe, send one synthetic
WalletArrived per held wallet, and then forward the live subscription
events in order. -/
def getEventStream (wallets : List URL) (live : List WalletEvent)
    (sendOk : SendOutcomes) : List ProtoStreamResponse :=
  let snapshot := wallets.map snapshotEvent
  let r := sendEvents sendOk 0 snapshot
  if r.2 then
    r.1 ++ (sendEvents sendOk wallets.length (live.map asProtoWalletEvent)).1
  else r.1

/-- One behavior of stream.Send observed with its Go error: the i-th send
either succeeds (none) or fails with an error value. -/
def SendResults := Nat → Option String

/-- The error with which a run of sends aborts, if any: GetEventStream
returns at the first failed send. -/
def sendEventsResult (sendRes : SendResults) :
    Nat → List ProtoStreamResponse → Option String
  | _, [] => none
  | i, _ :: rest =>
    match sendRes i with
    | none => sendEventsResult sendRes (i + 1) rest
    | some e => some e

/-- The error value GetEventStream (signer.go) returns, observed until the
given live events are exhausted: the error of the first failed send,
returned unwrapped (the source returns err without status.Error in both
the snapshot loop and the live loop); none while the stream is still
running. -/
def getEventStreamReturn (wallets : List URL) (live : List WalletEvent)
    (sendRes : SendResults) : Option RpcError :=
  match sendEventsResult sendRes 0 (wallets.map snapshotEvent) with
  | some e => some (.plainError e)
  | none =>
    match sendEventsResult sendRes wallets.length (live.map asProtoWalletEvent) with
    | some e => some (.plainError e)
    | none => none

/-- A stream whose every send fails. -/
def sampleSendFail : SendResults := fun _ => some "send failed"

/-! ### The account cache (cache package in signer.go) -/

/-- The account cache: keystore directory, the URL-ordered All slice, and
the ByAddr index.  The Go map is modelled as a function from addresses to
buckets, an absent key being the empty bucket (the code deletes a key
exactly when its bucket empties). -/
structure AccountCache where
  keydir : String
  all : List Account
  byAddr : Address → List Account

/-- A fresh cache over a directory (NewAccountCache). -/
def emptyCache (keydir : String) : AccountCache :=
  { keydir := keydir, all := [], byAddr := fun _ => [] }

/-- sort.Search over All with predicate URL.Cmp(u) >= 0, as Add uses it:
the least index whose account URL is not Cmp-below u, the list length when
there is none.  sort.Search is a binary search whose contract is exactly
this least index for the monotone predicate the sorted slice provides. -/
def lowerBound (u : URL) : List Account → Nat
  | [] => 0
  | x :: xs => if urlCmp x.url u = .lt then lowerBound u xs + 1 else 0

/-- AccountCache.Add (signer.go): find the insertion point, do nothing when
that position already holds the same account, otherwise insert into All
and append to the address bucket. -/
def cacheAdd (ac : AccountCache) (newAccount : Account) : AccountCache :=
  if ac.all[lowerBound newAccount.url ac.all]? = some newAccount then ac
  else
    { ac with
      all := ac.all.insertIdx (lowerBound newAccount.url ac.all) newAccount
      byAddr := fun a =>
        if a = newAccount.address then ac.byAddr a ++ [newAccount]
        else ac.byAddr a }

/-- removeAccount (signer.go): drop the first occurrence, if any. -/
def removeAccount : List Account → Account → List Account
  | [], _ => []
  | x :: xs, elem => if x = elem then xs else x :: removeAccount xs elem

/-- AccountCache.delete (signer.go): remove the account from All and from
its address bucket. -/
def cacheDelete (ac : AccountCache) (removed : Account) : AccountCache :=
  { ac with
    all := removeAccount ac.all removed
    byAddr := fun a =>
      if a = removed.address then
        removeAccount (ac.byAddr removed.address) removed
      else ac.byAddr a }

/-- sort.Search over All with predicate URL.Path >= path, as deleteByFile
uses it. -/
def lowerBoundPath (path : String) : List Account → Nat
  | [] => 0
  | x :: xs => if x.url.path < path then lowerBoundPath path xs + 1 else 0

/-- AccountCache.deleteByFile (signer.go): locate the account whose URL
path equals the given path and remove it from both views. -/
def cacheDeleteByFile (ac : AccountCache) (path : String) : AccountCache :=
  match ac.all[lowerBoundPath path ac.all]? with
  | some removed =>
    if removed.url.path = path then
      { ac with
        all := ac.all.take (lowerBoundPath path ac.all) ++
          ac.all.drop (lowerBoundPath path ac.all + 1)
        byAddr := fun a =>
          if a = removed.address then
            removeAccount (ac.byAddr removed.address) removed
          else ac.byAddr a }
    else ac
  | none => ac

/-- A cache mutation. -/
inductive CacheOp
  | add (a : Account)
  | del (a : Account)
  | delByFile (path : String)

/-- Apply one mutation. -/
def applyOp (ac : AccountCache) : CacheOp → AccountCache
  | .add a => cacheAdd ac a
  | .del a => cacheDelete ac a
  | .delByFile p => cacheDeleteByFile ac p

/-- Apply a sequence of mutations from the left. -/
def applyOps (ac : AccountCache) (ops : List CacheOp) : AccountCache :=
  ops.foldl applyOp ac

/-- A list of accounts in non-descending wallet-URL order. -/
def SortedByURL (l : List Account) : Prop :=
  l.Pairwise (fun x y => accountLeB x y = true)

/-- The internal invariant tying both cache views together: All is sorted,
buckets hold only accounts with their key address, and every account
occurs in All exactly as often as in its bucket. -/
def CacheConsistent (ac : AccountCache) : Prop :=
  SortedByURL ac.all ∧
  (∀ a x, x ∈ ac.byAddr a → x.address = a) ∧
  (∀ x : Account, ac.all.count x = (ac.byAddr x.address).count x)

/-- keystore.ErrNoMatch and the cache package's AmbiguousAddrError. -/
inductive FindError
  | noMatch
  | ambiguousAddr (addr : Address) (matched : List Account)
deriving DecidableEq, Repr

/-- strings.ContainsRune(path, filepath.Separator) on a unix platform. -/
def containsSeparator (s : String) : Bool := s.toList.contains '/'

/-- filepath.Join of the keystore directory and a bare file name (for the
cleaned inputs the cache handles, Join is directory, separator, name). -/
def filepathJoin (dir name : String) : String := dir ++ "/" ++ name

/-- The switch over the number of candidates that ends Find: one candidate
is returned, none is no-match, more are the ambiguous error carrying a
URL-sorted copy of the candidates (sort.Sort(vault.AccountsByURL), modelled
by mergeSort: a sorted permutation, which is the sort contract). -/
def cacheFindSwitch (addr : Address) (cands : List Account) :
    Except FindError Account :=
  match cands with
  | [m] => .ok m
  | [] => .error .noMatch
  | ms => .error (.ambiguousAddr addr (ms.mergeSort accountLeB))

/-- The candidate restriction at the top of Find: every account when the
specifier's address is the zero value, the address bucket otherwise. -/
def findCands (ac : AccountCache) (a : Account) : List Account :=
  if a.address = zeroAddress then ac.all else ac.byAddr a.address

/-- The URL Find compares against: the specifier's URL, its path completed
against the keystore directory when it has no path separator. -/
def findTargetUrl (ac : AccountCache) (a : Account) : URL :=
  if containsSeparator a.url.path then a.url
  else { scheme := a.url.scheme, path := filepathJoin ac.keydir a.url.path }

/-- AccountCache.Find (signer.go): restrict candidates to the given address
when it is nonzero; when a URL path is given, complete a bare file name
against the keystore directory and return an exact URL match immediately,
and fail with no-match for a zero address; otherwise decide by the number
of candidates. -/
def cacheFind (ac : AccountCache) (a : Account) : Except FindError Account :=
  if a.url.path ≠ "" then
    match (findCands ac a).find? (fun m => m.url == findTargetUrl ac a) with
    | some m => .ok m
    | none =>
      if a.address = zeroAddress then .error .noMatch
      else cacheFindSwitch a.address (findCands ac a)
  else cacheFindSwitch a.address (findCands ac a)

/-- Claim C5 exactly as stated: candidates are restricted to the
specifier's address when it is nonzero; an exact URL match among the
candidates is returned immediately when a path is given; otherwise zero
candidates give the no-match error, a unique candidate is returned, and
two or more give the ambiguous error listing exactly the candidates sorted
by URL. -/
def cacheFindClaimed (ac : AccountCache) (a : Account) :
    Except FindError Account :=
  match (if a.url.path ≠ "" then (findCands ac a).find? (fun m => m.url == a.url)
    else none) with
  | some m => .ok m
  | none => cacheFindSwitch a.address (findCands ac a)

/-- A cache holding exactly sampleAccount (as built by Add from empty). -/
def sampleCacheOne : AccountCache :=
  { keydir := "/kd", all := [sampleAccount]
    byAddr := fun ad => if ad = sampleAccount.address then [sampleAccount] else [] }

/-- A specifier with a zero address and a URL path that matches nothing. -/
def sampleFindSpecifier : Account :=
  ⟨zeroAddress, ⟨"file", "/kd/other.json"⟩⟩

/-- A second sample account sharing sampleAccount's address under another
URL. -/
def sampleAccountB : Account :=
  ⟨⟨List.replicate 19 0 ++ [1]⟩, ⟨"file", "/kd/b2.json"⟩⟩

/-- A cache holding two accounts with the same address. -/
def sampleCacheTwo : AccountCache :=
  { keydir := "/kd"
    all := [sampleAccount, sampleAccountB]
    byAddr := fun ad =>
      if ad = sampleAccount.address then [sampleAccount, sampleAccountB] else [] }

/-- An address-only specifier for the shared sample address. -/
def sampleAddrSpecifier : Account :=
  ⟨⟨List.replicate 19 0 ++ [1]⟩, ⟨"", ""⟩⟩

end QuorumVaultPlugin

namespace QuorumVaultPlugin

/-- Claim C8 (counterexample): with a token and a role-id set but no
secret-id, the claim as stated predicts success (a token is set), but
getAuthCredentials returns the incomplete-AppRole error. -/
theorem c8_credentials_claim_false : ¬ CredentialsClaimAt envRoleAndTokenOnly "" := by
  intro h
  have hs := h.1.2 (Or.inl (by decide))
  rcases hs with ⟨c, hc⟩
  have : getAuthCredentials envRoleAndTokenOnly "" =
      .error (.invalidApproleAuth DefaultRoleIDEnv DefaultSecretIDEnv) := by
    simp [getAuthCredentials, envRoleAndTokenOnly, applyPrefixEnv,
      DefaultRoleIDEnv, DefaultSecretIDEnv, DefaultTokenEnv]
  rw [this] at hc
  exact Except.noConfusion hc

/-- Claim C8 (amended): reading credentials succeeds exactly when both
role-id and secret-id are set, or a token is set while role-id and
secret-id are both empty; it fails with the no-credentials error when all
three are empty, and with the incomplete-AppRole error when exactly one of
role-id and secret-id is set, even if a token is also set. -/
theorem c8_credentials_amended (env : Env) (authID : String) :
    let roleIDEnv := applyPrefixEnv authID DefaultRoleIDEnv
    let secretIDEnv := applyPrefixEnv authID DefaultSecretIDEnv
    let tokenEnv := applyPrefixEnv authID DefaultTokenEnv
    ((∃ c, getAuthCredentials env authID = .ok c) ↔
        ((env roleIDEnv ≠ "" ∧ env secretIDEnv ≠ "") ∨
          (env tokenEnv ≠ "" ∧ env roleIDEnv = "" ∧ env secretIDEnv = ""))) ∧
    (env roleIDEnv = "" ∧ env secretIDEnv = "" ∧ env tokenEnv = "" →
      getAuthCredentials env authID =
        .error (.noHashicorpEnvSet roleIDEnv secretIDEnv tokenEnv)) ∧
    ((env roleIDEnv = "" ∧ env secretIDEnv ≠ "") ∨
        (env roleIDEnv ≠ "" ∧ env secretIDEnv = "") →
      getAuthCredentials env authID =
        .error (.invalidApproleAuth roleIDEnv secretIDEnv)) := by
  by_cases hr : env (applyPrefixEnv authID DefaultRoleIDEnv) = "" <;>
    by_cases hs : env (applyPrefixEnv authID DefaultSecretIDEnv) = "" <;>
      by_cases ht : env (applyPrefixEnv authID DefaultTokenEnv) = "" <;>
        simp [getAuthCredentials, hr, hs, ht]

/-- Claim C4: given the configured client and its read result,
getSecretFromVault returns the secret string exactly when the response is
present and its data field is a map holding exactly one key/value pair
whose value is that string; every other shape yields an error. -/
theorem c4_getSecretFromVault (m : VaultClientManager) (config : AccountConfig)
    (read : VaultReader) (optResp : Option VaultResponse)
    (hclient : m.clients config.hashicorpVault.authID = some read)
    (hread : read
      (config.hashicorpVault.pathParams.secretEnginePath ++ "/data/" ++
        config.hashicorpVault.pathParams.secretPath)
      [("version", [toString config.hashicorpVault.pathParams.secretVersion])] =
      .ok optResp) :
    ∀ s, getSecretFromVault m config = .ok s ↔
      ∃ resp key, optResp = some resp ∧
        resp.data.lookup "data" = some (.map [(key, .str s)]) := by
  intro s
  unfold getSecretFromVault
  simp only [hclient, hread]
  cases optResp with
  | none => simp
  | some resp =>
    simp only [Option.some.injEq]
    cases hl : resp.data.lookup "data" with
    | none =>
      simp only []
      constructor
      · intro h; exact absurd h (by simp)
      · rintro ⟨r, k, hr, hk⟩; subst hr; rw [hl] at hk; cases hk
    | some v =>
      cases v with
      | str s1 =>
        constructor
        · intro h; exact absurd h (by simp)
        · rintro ⟨r, k, hr, hk⟩; subst hr; rw [hl] at hk; cases hk
      | other =>
        constructor
        · intro h; exact absurd h (by simp)
        · rintro ⟨r, k, hr, hk⟩; subst hr; rw [hl] at hk; cases hk
      | map respData =>
        match respData with
        | [] =>
          constructor
          · intro h; exact absurd h (by simp [lastValue])
          · rintro ⟨r, k, hr, hk⟩; subst hr; rw [hl] at hk; cases hk
        | [(k1, v1)] =>
          cases v1 with
          | str s1 =>
            simp only [lastValue, List.foldl, List.length, ite_false]
            constructor
            · intro h
              have hs1 : s1 = s := by
                simpa using h
              exact ⟨resp, k1, rfl, by rw [hl, hs1]⟩
            · rintro ⟨r, k, hr, hk⟩
              subst hr
              rw [hl] at hk
              injection hk with hk2
              cases hk2
              simp
          | map inner =>
            simp only [lastValue, List.foldl, ite_false]
            constructor
            · intro h; exact absurd h (by simp)
            · rintro ⟨r, k, hr, hk⟩
              subst hr
              rw [hl] at hk
              injection hk with hk2
              cases hk2
          | other =>
            simp only [lastValue, List.foldl, ite_false]
            constructor
            · intro h; exact absurd h (by simp)
            · rintro ⟨r, k, hr, hk⟩
              subst hr
              rw [hl] at hk
              injection hk with hk2
              cases hk2
        | kv1 :: kv2 :: rest =>
          constructor
          · intro h
            exact absurd h (by simp [List.length])
          · rintro ⟨r, k, hr, hk⟩
            subst hr
            rw [hl] at hk
            injection hk with hk2
            cases hk2

/-- Claim C4 witness: a concrete well-shaped response yields its secret. -/
theorem c4_getSecretFromVault_witness :
    getSecretFromVault sampleManager sampleConfig = .ok "deadbeef" := by
  have h := c4_getSecretFromVault sampleManager sampleConfig sampleReader
    (some sampleResponse) rfl rfl
  exact (h "deadbeef").mpr ⟨sampleResponse, "k1", rfl, rfl⟩

/-- Claim C1: the claim that no plugin operation ever panics fails on the
hashicorp vaultClientManager: both StoreKey and JoinPath panic with
implement me on every input, here evaluated at a concrete one. -/
theorem c1_storekey_joinpath_panic :
    hashicorpStoreKey sampleManager "acct.json" sampleKey "auth1" =
      .panicked "implement me" ∧
    hashicorpJoinPath sampleManager "acct.json" = .panicked "implement me" :=
  ⟨rfl, rfl⟩

/-- Claim C2: HashicorpPlugin.Init passes a non-pointer value to
json.Unmarshal, so for every configuration input and every behavior of
validation and account-manager construction it returns an InvalidArgument
error; it never returns the ack. -/
theorem c2_init_never_acks {Config AM : Type} (conf : Config)
    (validate : Config → Except String Unit)
    (newAccountManager : Config → Except String AM) (raw : List GoByte) :
    ∃ msg, hashicorpPluginInit conf validate newAccountManager raw =
      .error (.statusError .invalidArgument msg) :=
  ⟨_, rfl⟩

/-- Claim C7: the manager renew loop retries re-authentication with a 5000
ms sleep after each failure until one succeeds (evaluated on a world where
the third attempt succeeds), keeps retrying with a sleep per failure for
ever (for any observation bound, on a world where every attempt fails), and
surfaces no error; but the hashicorp renew loop diverges from the claim: on
a failed re-authentication login it performs no sleep and no retry, and
installs the empty token. -/
theorem c7_renew_loops :
    reauthRetryLoop failTwiceOutcomes 5 0 = (some 3, [5000, 5000]) ∧
    (∀ fuel i, reauthRetryLoop alwaysFailOutcomes fuel i =
      (none, List.replicate fuel 5000)) ∧
    hashicorpRenewDoneBranch envApproleOnly ""
      (fun _ => .error "connection refused") =
      { loginAttempts := 1, sleeps := [], installedToken := some "",
        surfaced := none } := by
  refine ⟨by decide, ?_, by decide⟩
  intro fuel
  induction fuel with
  | zero => intro i; rfl
  | succ n ih =>
    intro i
    simp only [reauthRetryLoop, alwaysFailOutcomes, ih, List.replicate, reauthRetryInterval]

/-- Claim C3 (counterexample): two RPC operations return errors that are
not gRPC status errors of any code: SignTx returns a failed rlp re-encode
error unwrapped, and GetEventStream returns a failed stream send error
unwrapped. -/
theorem c3_error_shape_claim_false :
    (signTxHandler sampleToUrl decodeUnitOk encodeFailBoom sampleManagerUnit
        sampleSignTxRequest = .error (.plainError "boom") ∧
      ∀ code msg, (RpcError.plainError "boom") ≠ .statusError code msg) ∧
    (getEventStreamReturn [⟨"file", "/kd/a1.json"⟩] [] sampleSendFail =
        some (.plainError "send failed") ∧
      ∀ code msg, (RpcError.plainError "send failed") ≠ .statusError code msg) := by
  refine ⟨⟨rfl, ?_⟩, ⟨rfl, ?_⟩⟩
  · intro code msg h
    exact RpcError.noConfusion h
  · intro code msg h
    exact RpcError.noConfusion h

/-- A failed run of sends fails at some concrete send. -/
theorem sendEventsResult_some (sendRes : SendResults) :
    ∀ (l : List ProtoStreamResponse) (i : Nat) (e : String),
      sendEventsResult sendRes i l = some e → ∃ j, sendRes j = some e := by
  intro l
  induction l with
  | nil =>
    intro i e h
    cases h
  | cons x rest ih =>
    intro i e h
    unfold sendEventsResult at h
    cases hs : sendRes i with
    | none =>
      simp only [hs] at h
      exact ih (i + 1) e h
    | some e1 =>
      simp only [hs] at h
      injection h with h2
      exact ⟨i, by rw [hs, h2]⟩

/-- Claim C3 (amended): for every RPC operation, a returned error is a
gRPC status error carrying a message, with code Internal (InvalidArgument
for Init), except that SignTx and SignTxWithPassphrase return the error of
re-encoding the signed transaction unwrapped, and GetEventStream returns
the error of a failed stream send unwrapped, with no status code. -/
theorem c3_errors_amended {Tx K : Type} (toUrl : String → Except String URL)
    (rlpDecode : List GoByte → Except String Tx)
    (rlpEncode : Tx → Except String (List GoByte))
    (hexToECDSA : String → Except String K) (m : ManagerModel Tx K) :
    (∀ req e, signTxHandler toUrl rlpDecode rlpEncode m req = .error e →
      (∃ msg, e = .statusError .internal msg) ∨
        (∃ tx msg, rlpEncode tx = .error msg ∧ e = .plainError msg)) ∧
    (∀ req e, signTxWithPassphraseHandler toUrl rlpDecode rlpEncode m req = .error e →
      (∃ msg, e = .statusError .internal msg) ∨
        (∃ tx msg, rlpEncode tx = .error msg ∧ e = .plainError msg)) ∧
    (∀ req e, statusHandler m req = .error e →
      ∃ msg, e = .statusError .internal msg) ∧
    (∀ req e, openHandler m req = .error e →
      ∃ msg, e = .statusError .internal msg) ∧
    (∀ req e, closeHandler m req = .error e →
      ∃ msg, e = .statusError .internal msg) ∧
    (∀ req e, accountsHandler m req = .error e →
      ∃ msg, e = .statusError .internal msg) ∧
    (∀ req e, containsHandler toUrl m req = .error e →
      ∃ msg, e = .statusError .internal msg) ∧
    (∀ req e, signHashHandler toUrl m req = .error e →
      ∃ msg, e = .statusError .internal msg) ∧
    (∀ req e, signHashWithPassphraseHandler toUrl m req = .error e →
      ∃ msg, e = .statusError .internal msg) ∧
    (∀ req e, timedUnlockHandler toUrl m req = .error e →
      ∃ msg, e = .statusError .internal msg) ∧
    (∀ req e, lockHandler toUrl m req = .error e →
      ∃ msg, e = .statusError .internal msg) ∧
    (∀ req e, newAccountHandler m req = .error e →
      ∃ msg, e = .statusError .internal msg) ∧
    (∀ req e, importRawKeyHandler hexToECDSA m req = .error e →
      ∃ msg, e = .statusError .internal msg) ∧
    (∀ (Config AM : Type) (conf : Config) (validate : Config → Except String Unit)
      (newAM : Config → Except String AM) (raw : List GoByte) (e : RpcError),
      hashicorpPluginInit conf validate newAM raw = .error e →
      ∃ msg, e = .statusError .invalidArgument msg) ∧
    (∀ wallets live sendRes e, getEventStreamReturn wallets live sendRes = some e →
      ∃ j msg, sendRes j = some msg ∧ e = .plainError msg) := by
  refine ⟨?_, ?_, ?_, ?_, ?_, ?_, ?_, ?_, ?_, ?_, ?_, ?_, ?_, ?_, ?_⟩
  · intro req e h
    unfold signTxHandler at h
    cases hw : m.wallet req.walletUrl with
    | error e1 => simp only [hw] at h; injection h with h2; exact Or.inl ⟨e1, h2.symm⟩
    | ok w =>
      simp only [hw] at h
      cases ha : asAccount toUrl req.account with
      | error e1 => simp only [ha] at h; injection h with h2; exact Or.inl ⟨e1, h2.symm⟩
      | ok a =>
        simp only [ha] at h
        cases hd : rlpDecode req.rlpTx with
        | error e1 => simp only [hd] at h; injection h with h2; exact Or.inl ⟨e1, h2.symm⟩
        | ok tx =>
          simp only [hd] at h
          cases hs : w.signTx a tx (bytesToNat req.chainID) with
          | error e1 => simp only [hs] at h; injection h with h2; exact Or.inl ⟨e1, h2.symm⟩
          | ok result =>
            simp only [hs] at h
            cases he : rlpEncode result with
            | error e1 =>
              simp only [he] at h; injection h with h2
              exact Or.inr ⟨result, e1, he, h2.symm⟩
            | ok bs => simp only [he] at h; exact Except.noConfusion h
  · intro req e h
    unfold signTxWithPassphraseHandler at h
    cases hw : m.wallet req.walletUrl with
    | error e1 => simp only [hw] at h; injection h with h2; exact Or.inl ⟨e1, h2.symm⟩
    | ok w =>
      simp only [hw] at h
      cases ha : asAccount toUrl req.account with
      | error e1 => simp only [ha] at h; injection h with h2; exact Or.inl ⟨e1, h2.symm⟩
      | ok a =>
        simp only [ha] at h
        cases hd : rlpDecode req.rlpTx with
        | error e1 => simp only [hd] at h; injection h with h2; exact Or.inl ⟨e1, h2.symm⟩
        | ok tx =>
          simp only [hd] at h
          cases hs : w.signTxWithPassphrase a req.passphrase tx (bytesToNat req.chainID) with
          | error e1 => simp only [hs] at h; injection h with h2; exact Or.inl ⟨e1, h2.symm⟩
          | ok result =>
            simp only [hs] at h
            cases he : rlpEncode result with
            | error e1 =>
              simp only [he] at h; injection h with h2
              exact Or.inr ⟨result, e1, he, h2.symm⟩
            | ok bs => simp only [he] at h; exact Except.noConfusion h
  · intro req e h
    unfold statusHandler at h
    cases hw : m.wallet req.walletUrl with
    | error e1 => simp only [hw] at h; injection h with h2; exact ⟨e1, h2.symm⟩
    | ok w =>
      simp only [hw] at h
      cases hst : w.status with
      | error e1 => simp only [hst] at h; injection h with h2; exact ⟨e1, h2.symm⟩
      | ok s => simp only [hst] at h; exact Except.noConfusion h
  · intro req e h
    unfold openHandler at h
    cases hw : m.wallet req.walletUrl with
    | error e1 => simp only [hw] at h; injection h with h2; exact ⟨e1, h2.symm⟩
    | ok w =>
      simp only [hw] at h
      cases ho : w.openW req.passphrase with
      | error e1 => simp only [ho] at h; injection h with h2; exact ⟨e1, h2.symm⟩
      | ok r => simp only [ho] at h; exact Except.noConfusion h
  · intro req e h
    unfold closeHandler at h
    cases hw : m.wallet req.walletUrl with
    | error e1 => simp only [hw] at h; injection h with h2; exact ⟨e1, h2.symm⟩
    | ok w =>
      simp only [hw] at h
      cases hc : w.close with
      | error e1 => simp only [hc] at h; injection h with h2; exact ⟨e1, h2.symm⟩
      | ok r => simp only [hc] at h; exact Except.noConfusion h
  · intro req e h
    unfold accountsHandler at h
    cases hw : m.wallet req.walletUrl with
    | error e1 => simp only [hw] at h; injection h with h2; exact ⟨e1, h2.symm⟩
    | ok w => simp only [hw] at h; exact Except.noConfusion h
  · intro req e h
    unfold containsHandler at h
    cases hw : m.wallet req.walletUrl with
    | error e1 => simp only [hw] at h; injection h with h2; exact ⟨e1, h2.symm⟩
    | ok w =>
      simp only [hw] at h
      cases ha : asAccount toUrl req.account with
      | error e1 => simp only [ha] at h; injection h with h2; exact ⟨e1, h2.symm⟩
      | ok a => simp only [ha] at h; exact Except.noConfusion h
  · intro req e h
    unfold signHashHandler at h
    cases hw : m.wallet req.walletUrl with
    | error e1 => simp only [hw] at h; injection h with h2; exact ⟨e1, h2.symm⟩
    | ok w =>
      simp only [hw] at h
      cases ha : asAccount toUrl req.account with
      | error e1 => simp only [ha] at h; injection h with h2; exact ⟨e1, h2.symm⟩
      | ok a =>
        simp only [ha] at h
        cases hs : w.signHash a req.hash with
        | error e1 => simp only [hs] at h; injection h with h2; exact ⟨e1, h2.symm⟩
        | ok r => simp only [hs] at h; exact Except.noConfusion h
  · intro req e h
    unfold signHashWithPassphraseHandler at h
    cases hw : m.wallet req.walletUrl with
    | error e1 => simp only [hw] at h; injection h with h2; exact ⟨e1, h2.symm⟩
    | ok w =>
      simp only [hw] at h
      cases ha : asAccount toUrl req.account with
      | error e1 => simp only [ha] at h; injection h with h2; exact ⟨e1, h2.symm⟩
      | ok a =>
        simp only [ha] at h
        cases hs : w.signHashWithPassphrase a req.passphrase req.hash with
        | error e1 => simp only [hs] at h; injection h with h2; exact ⟨e1, h2.symm⟩
        | ok r => simp only [hs] at h; exact Except.noConfusion h
  · intro req e h
    unfold timedUnlockHandler at h
    cases ha : asAccount toUrl req.account with
    | error e1 => simp only [ha] at h; injection h with h2; exact ⟨e1, h2.symm⟩
    | ok a =>
      simp only [ha] at h
      cases hu : m.timedUnlock a req.password req.duration with
      | error e1 => simp only [hu] at h; injection h with h2; exact ⟨e1, h2.symm⟩
      | ok r => simp only [hu] at h; exact Except.noConfusion h
  · intro req e h
    unfold lockHandler at h
    cases ha : asAccount toUrl req.account with
    | error e1 => simp only [ha] at h; injection h with h2; exact ⟨e1, h2.symm⟩
    | ok a =>
      simp only [ha] at h
      cases hu : m.lock a with
      | error e1 => simp only [hu] at h; injection h with h2; exact ⟨e1, h2.symm⟩
      | ok r => simp only [hu] at h; exact Except.noConfusion h
  · intro req e h
    unfold newAccountHandler at h
    cases hb : m.getAccountCreator req.newVaultAccount.vaultAddress with
    | error e1 => simp only [hb] at h; injection h with h2; exact ⟨e1, h2.symm⟩
    | ok b =>
      simp only [hb] at h
      cases hn : b.newAccount (asVaultAccountConfig req.newVaultAccount) with
      | error e1 => simp only [hn] at h; injection h with h2; exact ⟨e1, h2.symm⟩
      | ok res =>
        obtain ⟨acct, uri⟩ := res
        simp only [hn] at h
        exact Except.noConfusion h
  · intro req e h
    unfold importRawKeyHandler at h
    cases hb : m.getAccountCreator req.newVaultAccount.vaultAddress with
    | error e1 => simp only [hb] at h; injection h with h2; exact ⟨e1, h2.symm⟩
    | ok b =>
      simp only [hb] at h
      cases hk : hexToECDSA req.rawKey with
      | error e1 => simp only [hk] at h; injection h with h2; exact ⟨e1, h2.symm⟩
      | ok key =>
        simp only [hk] at h
        cases hi : b.importECDSA key (asVaultAccountConfig req.newVaultAccount) with
        | error e1 => simp only [hi] at h; injection h with h2; exact ⟨e1, h2.symm⟩
        | ok res =>
          obtain ⟨acct, uri⟩ := res
          simp only [hi] at h
          exact Except.noConfusion h
  · intro Config AM conf validate newAM raw e h
    unfold hashicorpPluginInit jsonUnmarshalIntoNonPointer at h
    injection h with h2
    exact ⟨_, h2.symm⟩
  · intro wallets live sendRes e h
    unfold getEventStreamReturn at h
    cases h1 : sendEventsResult sendRes 0 (wallets.map snapshotEvent) with
    | some e1 =>
      simp only [h1] at h
      injection h with h2
      rcases sendEventsResult_some sendRes _ _ _ h1 with ⟨j, hj⟩
      exact ⟨j, e1, hj, h2.symm⟩
    | none =>
      simp only [h1] at h
      cases h2 : sendEventsResult sendRes wallets.length (live.map asProtoWalletEvent) with
      | some e1 =>
        simp only [h2] at h
        injection h with h3
        rcases sendEventsResult_some sendRes _ _ _ h2 with ⟨j, hj⟩
        exact ⟨j, e1, hj, h3.symm⟩
      | none => simp only [h2] at h; exact Option.noConfusion h

/-- Claim C3 witness: the amended theorem applied at the concrete failing
re-encode shows the returned error is the unwrapped plain error. -/
theorem c3_errors_amended_witness :
    (∃ msg, (RpcError.plainError "boom") = .statusError .internal msg) ∨
    (∃ tx msg, encodeFailBoom tx = .error msg ∧
      (RpcError.plainError "boom") = .plainError msg) := by
  have h := (c3_errors_amended sampleToUrl decodeUnitOk encodeFailBoom
    (fun _ => Except.ok ()) sampleManagerUnit).1
  exact h sampleSignTxRequest (.plainError "boom") rfl

/-- All sends succeeding, the whole event list is delivered. -/
theorem sendEvents_all_ok (sendOk : SendOutcomes) (hall : ∀ i, sendOk i = true) :
    ∀ (l : List ProtoStreamResponse) (i : Nat), sendEvents sendOk i l = (l, true) := by
  intro l
  induction l with
  | nil => intro i; rfl
  | cons e rest ih => intro i; simp [sendEvents, hall i, ih (i+1)]

/-- What a run of sends delivers is a prefix of the event list, the whole
list when every send succeeded. -/
theorem sendEvents_prefix_shape (sendOk : SendOutcomes) :
    ∀ (l : List ProtoStreamResponse) (i : Nat),
      ∃ k, k ≤ l.length ∧ (sendEvents sendOk i l).1 = l.take k ∧
        ((sendEvents sendOk i l).2 = true → (sendEvents sendOk i l).1 = l) := by
  intro l
  induction l with
  | nil =>
    intro i
    exact ⟨0, Nat.le_refl 0, rfl, fun _ => rfl⟩
  | cons e rest ih =>
    intro i
    by_cases hs : sendOk i
    · rcases ih (i+1) with ⟨k, hk, h1, h2⟩
      refine ⟨k+1, Nat.succ_le_succ hk, ?_, ?_⟩
      · simp [sendEvents, hs, h1]
      · intro hb
        simp only [sendEvents, hs, if_true] at hb ⊢
        simp only [List.cons.injEq, true_and]
        exact h2 (by simpa using hb)
    · refine ⟨0, Nat.zero_le _, ?_, ?_⟩
      · simp [sendEvents, hs]
      · intro hb
        simp [sendEvents, hs] at hb


/-- Claim C9: the stream first delivers one synthetic WalletArrived event
per currently held wallet and forwards live subscription events only after
the whole snapshot went out: every observable trace is a prefix of the
snapshot followed by the live events, and with every send succeeding it is
exactly that sequence. -/
theorem c9_event_stream (wallets : List URL) (live : List WalletEvent)
    (sendOk : SendOutcomes) :
    (∃ k, getEventStream wallets live sendOk =
      (wallets.map snapshotEvent ++ live.map asProtoWalletEvent).take k) ∧
    ((∀ i, sendOk i = true) →
      getEventStream wallets live sendOk =
        wallets.map snapshotEvent ++ live.map asProtoWalletEvent) := by
  constructor
  · unfold getEventStream
    rcases sendEvents_prefix_shape sendOk (wallets.map snapshotEvent) 0 with
      ⟨k, hk, h1, h2⟩
    by_cases hb : (sendEvents sendOk 0 (wallets.map snapshotEvent)).2 = true
    · rcases sendEvents_prefix_shape sendOk (live.map asProtoWalletEvent)
        wallets.length with ⟨k2, hk2, g1, _⟩
      refine ⟨(wallets.map snapshotEvent).length + k2, ?_⟩
      simp only [hb, if_true]
      rw [h2 hb, g1, List.take_append]
    · have hbf : (sendEvents sendOk 0 (wallets.map snapshotEvent)).2 = false := by
        simpa using hb
      refine ⟨k, ?_⟩
      simp only [hbf, Bool.false_eq_true, if_false]
      rw [h1, List.take_append_eq_append_take, Nat.sub_eq_zero_of_le ?_]
      · simp
      · simpa using hk
  · intro hall
    simp [getEventStream, sendEvents_all_ok sendOk hall]

/-- Claim C9 witness: a one-wallet snapshot followed by one live event, all
sends succeeding. -/
theorem c9_event_stream_witness :
    getEventStream [⟨"file", "/kd/a1.json"⟩]
      [⟨.walletOpened, ⟨"file", "/kd/a1.json"⟩⟩] (fun _ => true) =
      [⟨.walletArrived, "file:///kd/a1.json"⟩,
        ⟨.walletOpened, "file:///kd/a1.json"⟩] := by
  have h := (c9_event_stream [⟨"file", "/kd/a1.json"⟩]
    [⟨.walletOpened, ⟨"file", "/kd/a1.json"⟩⟩] (fun _ => true)).2 (fun _ => rfl)
  rw [h]
  rfl


set_option maxRecDepth 4096 in
/-- Facts about the two hex characters of one encoded byte: they are hex
digits, not whitespace, they decode to the byte's nibbles, and the low
character is never x or X (so an encoded address has no 0x prefix). -/
theorem byteToHexPair_facts :
    ∀ b : Fin 256,
      (byteToHexPair b.val).all isHexCharacter = true ∧
      (byteToHexPair b.val).all (fun c => !(isSpaceGo c)) = true ∧
      hexCharValue (nibbleToChar (b.val / 16)) = some (b.val / 16) ∧
      hexCharValue (nibbleToChar (b.val % 16)) = some (b.val % 16) ∧
      ((nibbleToChar (b.val % 16) == 'x') || (nibbleToChar (b.val % 16) == 'X')) = false := by
  decide

/-- Decoding inverts encoding on well-formed bytes. -/
theorem hex2Bytes_bytes2Hex (bs : List GoByte) (hb : ∀ b ∈ bs, b < 256) :
    hex2Bytes (bytes2Hex bs) = bs := by
  induction bs with
  | nil => rfl
  | cons b rest ih =>
    have hb256 : b < 256 := hb b (List.mem_cons_self b rest)
    have e1 : hexCharValue (nibbleToChar (b / 16)) = some (b / 16) :=
      (byteToHexPair_facts ⟨b, hb256⟩).2.2.1
    have e2 : hexCharValue (nibbleToChar (b % 16)) = some (b % 16) :=
      (byteToHexPair_facts ⟨b, hb256⟩).2.2.2.1
    have ih2 := ih (fun x hx => hb x (List.mem_cons_of_mem b hx))
    show hex2Bytes (nibbleToChar (b / 16) :: nibbleToChar (b % 16) :: bytes2Hex rest) =
      b :: rest
    simp only [hex2Bytes, e1, e2]
    rw [ih2, Nat.div_add_mod]

/-- An encoded byte list prints to twice as many characters. -/
theorem bytes2Hex_length (bs : List GoByte) :
    (bytes2Hex bs).length = 2 * bs.length := by
  induction bs with
  | nil => rfl
  | cons b rest ih =>
    show (byteToHexPair b ++ bytes2Hex rest).length = 2 * (rest.length + 1)
    rw [List.length_append, ih]
    show 2 + 2 * rest.length = 2 * (rest.length + 1)
    omega

/-- Every character of an encoded byte list is a hex digit. -/
theorem bytes2Hex_all_hex (bs : List GoByte) (hb : ∀ b ∈ bs, b < 256) :
    (bytes2Hex bs).all isHexCharacter = true := by
  induction bs with
  | nil => rfl
  | cons b rest ih =>
    have e1 : (byteToHexPair b).all isHexCharacter = true :=
      (byteToHexPair_facts ⟨b, hb b (List.mem_cons_self b rest)⟩).1
    have ih2 := ih (fun x hx => hb x (List.mem_cons_of_mem b hx))
    show (byteToHexPair b ++ bytes2Hex rest).all isHexCharacter = true
    rw [List.all_append, e1, ih2]
    rfl

/-- No character of an encoded byte list is whitespace. -/
theorem bytes2Hex_no_space (bs : List GoByte) (hb : ∀ b ∈ bs, b < 256) :
    ∀ c ∈ bytes2Hex bs, isSpaceGo c = false := by
  induction bs with
  | nil => intro c hc; cases hc
  | cons b rest ih =>
    intro c hc
    have e1 : (byteToHexPair b).all (fun c => !(isSpaceGo c)) = true :=
      (byteToHexPair_facts ⟨b, hb b (List.mem_cons_self b rest)⟩).2.1
    have hc2 : c ∈ byteToHexPair b ++ bytes2Hex rest := hc
    rcases List.mem_append.mp hc2 with hc3 | hc3
    · have := List.all_eq_true.mp e1 c hc3
      simpa using this
    · exact ih (fun x hx => hb x (List.mem_cons_of_mem b hx)) c hc3

/-- dropWhile is the identity when the predicate holds nowhere. -/
theorem dropWhile_eq_self_of_all_false {p : Char → Bool} (l : List Char)
    (h : ∀ c ∈ l, p c = false) : l.dropWhile p = l := by
  cases l with
  | nil => rfl
  | cons c rest => simp [List.dropWhile_cons, h c (List.mem_cons_self c rest)]

/-- TrimSpace is the identity on whitespace-free strings. -/
theorem trimSpaceChars_eq_self (l : List Char) (h : ∀ c ∈ l, isSpaceGo c = false) :
    trimSpaceChars l = l := by
  unfold trimSpaceChars
  rw [dropWhile_eq_self_of_all_false l h,
    dropWhile_eq_self_of_all_false l.reverse
      (fun c hc => h c (List.mem_reverse.mp hc)),
    List.reverse_reverse]

/-- An encoded byte list never starts with the 0x prefix. -/
theorem hasHexPrefixChars_bytes2Hex (bs : List GoByte) (hb : ∀ b ∈ bs, b < 256) :
    hasHexPrefixChars (bytes2Hex bs) = false := by
  cases bs with
  | nil => rfl
  | cons b rest =>
    have e : ((nibbleToChar (b % 16) == 'x') || (nibbleToChar (b % 16) == 'X')) = false :=
      (byteToHexPair_facts ⟨b, hb b (List.mem_cons_self b rest)⟩).2.2.2.2
    show hasHexPrefixChars
      (nibbleToChar (b / 16) :: nibbleToChar (b % 16) :: bytes2Hex rest) = false
    simp only [hasHexPrefixChars, e, Bool.and_false]

/-- The printed form of a twenty-byte address passes IsHexAddress. -/
theorem isHexAddress_bytes2Hex (bs : List GoByte) (hlen : bs.length = 20)
    (hb : ∀ b ∈ bs, b < 256) : isHexAddress (bytes2Hex bs) = true := by
  unfold isHexAddress
  simp only [hasHexPrefixChars_bytes2Hex bs hb, Bool.false_eq_true, if_false]
  simp only [Bool.and_eq_true, beq_iff_eq]
  refine ⟨by rw [bytes2Hex_length, hlen], ?_⟩
  unfold isHexChars
  simp only [Bool.and_eq_true, beq_iff_eq]
  exact ⟨by rw [bytes2Hex_length, hlen], bytes2Hex_all_hex bs hb⟩

/-- Parsing the printed form of a twenty-byte address recovers it. -/
theorem hexToAddress_bytes2Hex (bs : List GoByte) (hlen : bs.length = 20)
    (hb : ∀ b ∈ bs, b < 256) : hexToAddress (bytes2Hex bs) = ⟨bs⟩ := by
  unfold hexToAddress fromHex
  simp only [hasHexPrefixChars_bytes2Hex bs hb, Bool.false_eq_true, if_false]
  rw [if_neg (by rw [bytes2Hex_length, hlen]; omega)]
  rw [hex2Bytes_bytes2Hex bs hb]
  unfold bytesToAddress
  rw [if_neg (by rw [hlen]; omega)]
  simp only [hlen]
  simp

/-- Claim C10: for an account whose address is a well-formed twenty-byte
value and whose printed URL parses back to the same URL, converting to the
protobuf wire form and back yields the original account. -/
theorem c10_asAccount_roundtrip (toUrl : String → Except String URL)
    (acct : Account) (hlen : acct.address.bytes.length = 20)
    (hbytes : ∀ b ∈ acct.address.bytes, b < 256)
    (hurl : toUrl (urlToString acct.url) = .ok acct.url) :
    asAccount toUrl (asProtoAccount acct) = .ok acct := by
  unfold asAccount asProtoAccount
  simp only [trimSpaceChars_eq_self (bytes2Hex acct.address.bytes)
      (bytes2Hex_no_space acct.address.bytes hbytes),
    isHexAddress_bytes2Hex acct.address.bytes hlen hbytes, if_true, hurl,
    hexToAddress_bytes2Hex acct.address.bytes hlen hbytes]

/-- Claim C10 witness: the round trip at the concrete sample account. -/
theorem c10_asAccount_roundtrip_witness :
    asAccount sampleToUrl (asProtoAccount sampleAccount) = .ok sampleAccount :=
  c10_asAccount_roundtrip sampleToUrl sampleAccount (by decide) (by decide) rfl


/-- strCmp is lt exactly on the string order. -/
theorem strCmp_eq_lt {a b : String} : strCmp a b = .lt ↔ a < b := by
  unfold strCmp
  by_cases h1 : a < b
  · simp [h1]
  · by_cases h2 : a = b <;> simp [h1, h2]

/-- strCmp is gt exactly on the reversed string order. -/
theorem strCmp_eq_gt {a b : String} : strCmp a b = .gt ↔ b < a := by
  unfold strCmp
  by_cases h1 : a < b
  · have hna : ¬ b < a := lt_asymm h1
    simp [h1, hna]
  · by_cases h2 : a = b
    · simp [h1, h2, lt_self_iff_false]
    · have h3 : b < a := by
        rcases lt_trichotomy a b with h | h | h
        · exact absurd h h1
        · exact absurd h h2
        · exact h
      simp [h1, h2, h3]

/-- Flipping the arguments of URL.Cmp swaps gt and lt. -/
theorem urlCmp_gt_iff {u v : URL} : urlCmp u v = .gt ↔ urlCmp v u = .lt := by
  unfold urlCmp
  by_cases h : u.scheme = v.scheme
  · rw [if_pos h, if_pos h.symm, strCmp_eq_gt, strCmp_eq_lt]
  · rw [if_neg h, if_neg (Ne.symm h), strCmp_eq_gt, strCmp_eq_lt]

/-- The boolean URL order is the negation of a gt comparison. -/
theorem urlLeB_iff_ne_gt {u v : URL} : urlLeB u v = true ↔ urlCmp u v ≠ .gt := by
  unfold urlLeB
  cases hcmp : urlCmp u v <;> simp [hcmp] <;> decide

/-- The non-gt comparison in scheme and path terms. -/
theorem urlCmp_ne_gt_iff {u v : URL} :
    urlCmp u v ≠ .gt ↔
      (u.scheme < v.scheme ∨ (u.scheme = v.scheme ∧ u.path ≤ v.path)) := by
  unfold urlCmp
  by_cases h : u.scheme = v.scheme
  · rw [if_pos h]
    constructor
    · intro hne
      refine Or.inr ⟨h, ?_⟩
      rcases lt_trichotomy u.path v.path with hp | hp | hp
      · exact le_of_lt hp
      · exact le_of_eq hp
      · exact absurd (strCmp_eq_gt.mpr hp) hne
    · rintro (hlt | ⟨_, hle⟩)
      · rw [h] at hlt
        exact absurd hlt (lt_irrefl _)
      · intro hgt
        exact absurd (strCmp_eq_gt.mp hgt) (not_lt.mpr hle)
  · rw [if_neg h]
    constructor
    · intro hne
      left
      rcases lt_trichotomy u.scheme v.scheme with hs | hs | hs
      · exact hs
      · exact absurd hs h
      · exact absurd (strCmp_eq_gt.mpr hs) hne
    · rintro (hlt | ⟨heq, _⟩)
      · intro hgt
        exact absurd (strCmp_eq_gt.mp hgt) (lt_asymm hlt)
      · exact absurd heq h

/-- The account URL order is transitive. -/
theorem accountLeB_trans (a b c : Account) (h1 : accountLeB a b = true)
    (h2 : accountLeB b c = true) : accountLeB a c = true := by
  unfold accountLeB at h1 h2 ⊢
  rw [urlLeB_iff_ne_gt, urlCmp_ne_gt_iff] at h1 h2 ⊢
  rcases h1 with hs1 | ⟨he1, hp1⟩ <;> rcases h2 with hs2 | ⟨he2, hp2⟩
  · exact Or.inl (lt_trans hs1 hs2)
  · exact Or.inl (he2 ▸ hs1)
  · exact Or.inl (he1 ▸ hs2)
  · exact Or.inr ⟨he1.trans he2, le_trans hp1 hp2⟩

/-- The account URL order is total. -/
theorem accountLeB_total (a b : Account) :
    (accountLeB a b || accountLeB b a) = true := by
  unfold accountLeB
  rw [Bool.or_eq_true, urlLeB_iff_ne_gt, urlLeB_iff_ne_gt]
  by_cases hab : urlCmp a.url b.url = .gt
  · right
    have hlt := urlCmp_gt_iff.mp hab
    intro hgt
    exact Ordering.noConfusion (hlt.symm.trans hgt)
  · left
    exact hab

/-- A strictly-below comparison gives the non-strict account order. -/
theorem accountLeB_of_lt {x u : Account} (h : urlCmp x.url u.url = .lt) :
    accountLeB x u = true := by
  unfold accountLeB
  rw [urlLeB_iff_ne_gt]
  intro hgt
  rw [h] at hgt
  cases hgt

/-- A failed strictly-below comparison gives the reversed account order. -/
theorem accountLeB_of_not_lt {x u : Account} (h : ¬ urlCmp x.url u.url = .lt) :
    accountLeB u x = true := by
  unfold accountLeB
  rw [urlLeB_iff_ne_gt]
  intro hgt
  exact h (urlCmp_gt_iff.mp hgt)

/-- Claim C5 (counterexample): with a zero-address specifier whose URL path
matches nothing, the claim as stated promises the unique candidate back,
but Find returns the no-match error. -/
theorem c5_find_claim_false :
    cacheFindClaimed sampleCacheOne sampleFindSpecifier = .ok sampleAccount ∧
    cacheFind sampleCacheOne sampleFindSpecifier = .error .noMatch :=
  ⟨rfl, rfl⟩

/-- Claim C5 (amended): Find returns an exact match against the (directory
completed) URL immediately when a path is given; with a path given, no
exact URL match and a zero address it returns the no-match error; in every
other case the candidate count decides: none is no-match, a unique
candidate is returned, and two or more give the ambiguous-address error
listing exactly the candidates, sorted by URL. -/
theorem c5_find_amended (ac : AccountCache) (a : Account) :
    (∀ m, a.url.path ≠ "" →
      (findCands ac a).find? (fun c => c.url == findTargetUrl ac a) = some m →
      cacheFind ac a = .ok m) ∧
    (a.url.path ≠ "" →
      (findCands ac a).find? (fun c => c.url == findTargetUrl ac a) = none →
      a.address = zeroAddress → cacheFind ac a = .error .noMatch) ∧
    ((a.url.path = "" ∨
        ((findCands ac a).find? (fun c => c.url == findTargetUrl ac a) = none ∧
          a.address ≠ zeroAddress)) →
      (findCands ac a = [] → cacheFind ac a = .error .noMatch) ∧
      (∀ m, findCands ac a = [m] → cacheFind ac a = .ok m) ∧
      (2 ≤ (findCands ac a).length →
        ∃ ms, cacheFind ac a = .error (.ambiguousAddr a.address ms) ∧
          ms.Perm (findCands ac a) ∧ SortedByURL ms)) := by
  refine ⟨?_, ?_, ?_⟩
  · intro m hpath hfind
    unfold cacheFind
    rw [if_pos hpath]
    simp only [hfind]
  · intro hpath hfind hzero
    unfold cacheFind
    rw [if_pos hpath]
    simp only [hfind]
    rw [if_pos hzero]
  · intro hside
    have hswitch : cacheFind ac a = cacheFindSwitch a.address (findCands ac a) := by
      unfold cacheFind
      rcases hside with hpath | ⟨hfind, hnz⟩
      · rw [if_neg (by simpa using hpath)]
      · by_cases hpath : a.url.path ≠ ""
        · rw [if_pos hpath]
          simp only [hfind]
          rw [if_neg hnz]
        · rw [if_neg hpath]
    refine ⟨?_, ?_, ?_⟩
    · intro hnil
      rw [hswitch, hnil]
      rfl
    · intro m hm
      rw [hswitch, hm]
      rfl
    · intro hlen
      match hc : findCands ac a with
      | [] => rw [hc] at hlen; simp at hlen
      | [m] => rw [hc] at hlen; simp at hlen
      | m1 :: m2 :: rest =>
        rw [hswitch, hc]
        exact ⟨(m1 :: m2 :: rest).mergeSort accountLeB, rfl,
          List.mergeSort_perm _ _,
          List.sorted_mergeSort accountLeB_trans accountLeB_total _⟩

/-- Claim C5 witness: two same-address accounts and an address-only
specifier give the ambiguous error with a sorted permutation of both. -/
theorem c5_find_amended_witness :
    ∃ ms, cacheFind sampleCacheTwo sampleAddrSpecifier =
        .error (.ambiguousAddr sampleAddrSpecifier.address ms) ∧
      ms.Perm (findCands sampleCacheTwo sampleAddrSpecifier) ∧ SortedByURL ms :=
  ((c5_find_amended sampleCacheTwo sampleAddrSpecifier).2.2 (Or.inl rfl)).2.2
    (by decide)


/-- The insertion point never exceeds the list length. -/
theorem lowerBound_le_length (u : URL) (l : List Account) :
    lowerBound u l ≤ l.length := by
  induction l with
  | nil => exact Nat.le_refl 0
  | cons x xs ih =>
    unfold lowerBound
    by_cases h : urlCmp x.url u = .lt
    · rw [if_pos h]
      exact Nat.succ_le_succ ih
    · rw [if_neg h]
      exact Nat.zero_le _

/-- Inserting at the lower bound keeps the list URL-sorted. -/
theorem sortedByURL_insert (u : Account) (l : List Account) (h : SortedByURL l) :
    SortedByURL (l.insertIdx (lowerBound u.url l) u) := by
  induction l with
  | nil => exact List.pairwise_singleton _ _
  | cons x xs ih =>
    rcases List.pairwise_cons.mp h with ⟨hxall, hxs⟩
    show SortedByURL
      ((x :: xs).insertIdx (if urlCmp x.url u.url = .lt then lowerBound u.url xs + 1 else 0) u)
    by_cases hc : urlCmp x.url u.url = .lt
    · rw [if_pos hc, List.insertIdx_succ_cons]
      refine List.pairwise_cons.mpr ⟨?_, ih hxs⟩
      intro y hy
      rcases (List.mem_insertIdx (lowerBound_le_length u.url xs)).mp hy with rfl | hyxs
      · exact accountLeB_of_lt hc
      · exact hxall y hyxs
    · rw [if_neg hc, List.insertIdx_zero]
      refine List.pairwise_cons.mpr ⟨?_, h⟩
      intro y hy
      rcases List.mem_cons.mp hy with rfl | hyxs
      · exact accountLeB_of_not_lt hc
      · exact accountLeB_trans _ _ _ (accountLeB_of_not_lt hc) (hxall y hyxs)

/-- Inserting at the lower bound counts like consing. -/
theorem count_insert (u x : Account) (l : List Account) :
    (l.insertIdx (lowerBound u.url l) u).count x = (u :: l).count x :=
  List.Perm.count_eq (List.perm_insertIdx u l (lowerBound_le_length u.url l)) x

/-- removeAccount is erasure of the first occurrence. -/
theorem removeAccount_eq_erase (l : List Account) (e : Account) :
    removeAccount l e = l.erase e := by
  induction l with
  | nil => rfl
  | cons x xs ih =>
    unfold removeAccount
    rw [List.erase_cons]
    by_cases h : x = e
    · rw [if_pos h, if_pos (beq_iff_eq.mpr h)]
    · rw [if_neg h, if_neg (by simp [h]), ih]

/-- Add preserves the cache invariant. -/
theorem cacheConsistent_add (ac : AccountCache) (hInv : CacheConsistent ac)
    (na : Account) : CacheConsistent (cacheAdd ac na) := by
  rcases hInv with ⟨hsorted, hbucket, hcount⟩
  unfold cacheAdd
  by_cases hdup : ac.all[lowerBound na.url ac.all]? = some na
  · rw [if_pos hdup]
    exact ⟨hsorted, hbucket, hcount⟩
  · rw [if_neg hdup]
    refine ⟨sortedByURL_insert na ac.all hsorted, ?_, ?_⟩
    · intro a x hx
      change x ∈ (if a = na.address then ac.byAddr a ++ [na] else ac.byAddr a) at hx
      by_cases ha : a = na.address
      · rw [if_pos ha] at hx
        rcases List.mem_append.mp hx with hx1 | hx2
        · exact hbucket a x hx1
        · rw [List.mem_singleton.mp hx2]
          exact ha.symm
      · rw [if_neg ha] at hx
        exact hbucket a x hx
    · intro x
      change (ac.all.insertIdx (lowerBound na.url ac.all) na).count x =
        (if x.address = na.address then ac.byAddr x.address ++ [na]
          else ac.byAddr x.address).count x
      rw [count_insert, List.count_cons, hcount x]
      by_cases hxa : x.address = na.address
      · rw [if_pos hxa, List.count_append]
        simp [List.count_cons]
      · rw [if_neg hxa]
        have hne : (na == x) = false := by
          apply beq_eq_false_iff_ne.mpr
          intro he
          apply hxa
          rw [← he]
        rw [hne]
        simp

/-- delete preserves the cache invariant. -/
theorem cacheConsistent_delete (ac : AccountCache) (hInv : CacheConsistent ac)
    (r : Account) : CacheConsistent (cacheDelete ac r) := by
  rcases hInv with ⟨hsorted, hbucket, hcount⟩
  unfold cacheDelete
  refine ⟨?_, ?_, ?_⟩
  · change SortedByURL (removeAccount ac.all r)
    rw [removeAccount_eq_erase]
    exact List.Pairwise.sublist (List.erase_sublist r ac.all) hsorted
  · intro a x hx
    change x ∈ (if a = r.address then removeAccount (ac.byAddr r.address) r
      else ac.byAddr a) at hx
    by_cases ha : a = r.address
    · rw [if_pos ha, removeAccount_eq_erase] at hx
      have := hbucket r.address x (List.mem_of_mem_erase hx)
      rw [ha]
      exact this
    · rw [if_neg ha] at hx
      exact hbucket a x hx
  · intro x
    change (removeAccount ac.all r).count x =
      (if x.address = r.address then removeAccount (ac.byAddr r.address) r
        else ac.byAddr x.address).count x
    rw [removeAccount_eq_erase, List.count_erase]
    by_cases hxa : x.address = r.address
    · rw [if_pos hxa, removeAccount_eq_erase, List.count_erase, hcount x, hxa]
    · rw [if_neg hxa]
      have hne : (r == x) = false := by
        apply beq_eq_false_iff_ne.mpr
        intro he
        apply hxa
        rw [← he]
      rw [hne, hcount x]
      simp

/-- Removing the account found at one position of All (and from its
bucket) preserves the cache invariant. -/
theorem cacheConsistent_deleteAt (ac : AccountCache) (hInv : CacheConsistent ac)
    (i : Nat) (removed : Account) (hg : ac.all[i]? = some removed) :
    CacheConsistent
      { keydir := ac.keydir
        all := ac.all.take i ++ ac.all.drop (i + 1)
        byAddr := fun a =>
          if a = removed.address then removeAccount (ac.byAddr removed.address) removed
          else ac.byAddr a } := by
  rcases hInv with ⟨hsorted, hbucket, hcount⟩
  obtain ⟨hlt, hval⟩ := List.getElem?_eq_some.mp hg
  have hdecomp : ac.all = ac.all.take i ++ removed :: ac.all.drop (i + 1) := by
    conv_lhs => rw [← List.take_append_drop i ac.all]
    rw [List.drop_eq_getElem_cons hlt, hval]
  refine ⟨?_, ?_, ?_⟩
  · have hsub : (ac.all.take i ++ ac.all.drop (i + 1)).Sublist ac.all := by
      conv_rhs => rw [← List.take_append_drop i ac.all]
      refine List.Sublist.append_left ?_ _
      rw [List.drop_eq_getElem_cons hlt]
      exact List.tail_sublist (ac.all[i] :: List.drop (i + 1) ac.all)
    exact List.Pairwise.sublist hsub hsorted
  · intro a x hx
    change x ∈ (if a = removed.address then removeAccount (ac.byAddr removed.address) removed
      else ac.byAddr a) at hx
    by_cases ha : a = removed.address
    · rw [if_pos ha, removeAccount_eq_erase] at hx
      have := hbucket removed.address x (List.mem_of_mem_erase hx)
      rw [ha]
      exact this
    · rw [if_neg ha] at hx
      exact hbucket a x hx
  · intro x
    have hcx := hcount x
    rw [hdecomp, List.count_append, List.count_cons] at hcx
    change (ac.all.take i ++ ac.all.drop (i + 1)).count x =
      (if x.address = removed.address then removeAccount (ac.byAddr removed.address) removed
        else ac.byAddr x.address).count x
    rw [List.count_append]
    by_cases hxa : x.address = removed.address
    · rw [if_pos hxa, removeAccount_eq_erase, List.count_erase, ← hxa]
      cases hbe : (removed == x) <;> rw [hbe] at hcx <;> simp at hcx ⊢ <;> omega
    · rw [if_neg hxa]
      have hne : (removed == x) = false := by
        apply beq_eq_false_iff_ne.mpr
        intro he
        apply hxa
        rw [← he]
      rw [hne] at hcx
      simp at hcx
      omega

/-- deleteByFile preserves the cache invariant. -/
theorem cacheConsistent_deleteByFile (ac : AccountCache) (hInv : CacheConsistent ac)
    (p : String) : CacheConsistent (cacheDeleteByFile ac p) := by
  unfold cacheDeleteByFile
  cases hg : ac.all[lowerBoundPath p ac.all]? with
  | none =>
    simp only [hg]
    exact hInv
  | some removed =>
    simp only [hg]
    by_cases hp : removed.url.path = p
    · rw [if_pos hp]
      exact cacheConsistent_deleteAt ac hInv _ removed hg
    · rw [if_neg hp]
      exact hInv

/-- Every mutation sequence preserves the cache invariant. -/
theorem cacheConsistent_applyOps (ops : List CacheOp) :
    ∀ ac, CacheConsistent ac → CacheConsistent (applyOps ac ops) := by
  induction ops with
  | nil =>
    intro ac h
    exact h
  | cons op rest ih =>
    intro ac h
    cases op with
    | add a => exact ih _ (cacheConsistent_add ac h a)
    | del a => exact ih _ (cacheConsistent_delete ac h a)
    | delByFile p => exact ih _ (cacheConsistent_deleteByFile ac h p)

/-- Claim C6: after any sequence of Add, delete and deleteByFile operations
from the empty cache, All is URL-sorted, every account of All is in its
address bucket, and every bucket account is in All. -/
theorem c6_cache_invariants (keydir : String) (ops : List CacheOp) :
    SortedByURL (applyOps (emptyCache keydir) ops).all ∧
    (∀ x ∈ (applyOps (emptyCache keydir) ops).all,
      x ∈ (applyOps (emptyCache keydir) ops).byAddr x.address) ∧
    (∀ a x, x ∈ (applyOps (emptyCache keydir) ops).byAddr a →
      x ∈ (applyOps (emptyCache keydir) ops).all) := by
  have hbase : CacheConsistent (emptyCache keydir) := by
    refine ⟨List.Pairwise.nil, ?_, fun x => rfl⟩
    intro a x hx
    cases hx
  rcases cacheConsistent_applyOps ops (emptyCache keydir) hbase with ⟨hs, hb, hc⟩
  refine ⟨hs, ?_, ?_⟩
  · intro x hx
    have h1 : 0 < (applyOps (emptyCache keydir) ops).all.count x :=
      List.count_pos_iff.mpr hx
    rw [hc x] at h1
    exact List.count_pos_iff.mp h1
  · intro a x hx
    have ha := hb a x hx
    subst ha
    have h1 : 0 < ((applyOps (emptyCache keydir) ops).byAddr x.address).count x :=
      List.count_pos_iff.mpr hx
    rw [← hc x] at h1
    exact List.count_pos_iff.mp h1


/-- Claim C8 witness: the amended theorem applied to the role-and-token
environment yields the concrete incomplete-AppRole error. -/
theorem c8_credentials_amended_witness :
    getAuthCredentials envRoleAndTokenOnly "" =
      .error (.invalidApproleAuth (applyPrefixEnv "" DefaultRoleIDEnv)
        (applyPrefixEnv "" DefaultSecretIDEnv)) :=
  (c8_credentials_amended envRoleAndTokenOnly "").2.2 (Or.inr ⟨by decide, by decide⟩)

end QuorumVaultPlugin
